import Mathlib

/-!
Verification of the cross-reference resolution subsystem of pydoc-markdown
(`src/pydoc_markdown/contrib/processors/crossref.py`).

Docstring text is modelled as `List Char`.  The reference grammar is the
regular expression used by `CrossrefProcessor._preprocess_refs`:

    \B#(?P<ref>[\w\d\._]+)(?P<parens>\(\))?(?P<trailing>#[\w\d\._]+)?

restricted to its ASCII fragment (the examples and claims are ASCII).
`re.sub` with a replacement function is modelled by `tokenize` (the scan,
over the original text only, with the non-word-boundary `\B` tracked via the
character preceding each candidate position) followed by `applyPieces`
(assembling replacements left to right while threading the unresolved map).
-/

/-- ASCII fragment of `\w` in the Python regex: letters, digits, underscore. -/
def isWordChar (c : Char) : Bool := c.isAlphanum || c == '_'

/-- ASCII fragment of the character class `[\w\d\._]` of the `ref` and
`trailing` groups: word characters, digits, dot, underscore. -/
def isRefChar (c : Char) : Bool := c.isAlphanum || c == '_' || c == '.'

/-- One match of the reference regex.  `ref` is the `ref` group (nonempty in
any real match), `parens` records whether the literal `()` of the `parens`
group was present, and `trailing` is the text of the `trailing` group with
its single leading `#` removed (empty when the group did not participate). -/
structure RefMatch where
  ref : List Char
  parens : Bool
  trailing : List Char
deriving Repr, DecidableEq

/-- The optional `(?P<parens>\(\))?` group: consumed iff the text starts with
the two characters `()`. -/
def parseParens : List Char → Bool × List Char
  | '(' :: ')' :: rest => (true, rest)
  | l => (false, l)

/-- The optional `(?P<trailing>#[\w\d\._]+)?` group: consumed iff the text
starts with `#` followed by at least one ref character; returns the group
text without the leading `#`, and the remainder. -/
def parseTrailing : List Char → List Char × List Char
  | '#' :: rest =>
    if (rest.takeWhile isRefChar).isEmpty then ([], '#' :: rest)
    else (rest.takeWhile isRefChar, rest.dropWhile isRefChar)
  | l => ([], l)

/-- Attempt the regex at the current position.  `prevIsWord` is whether the
character immediately before this position is a word character: `\B` before
the non-word `#` holds exactly when it is not (start of string counts as
non-word). Returns the match and the remaining text after the match. -/
def tryMatch (prevIsWord : Bool) : List Char → Option (RefMatch × List Char)
  | '#' :: rest =>
    if prevIsWord then none
    else
      if (rest.takeWhile isRefChar).isEmpty then none
      else
        let pp := parseParens (rest.dropWhile isRefChar)
        let pt := parseTrailing pp.2
        some ({ ref := rest.takeWhile isRefChar, parens := pp.1, trailing := pt.1 }, pt.2)
  | _ => none

/-- Last character of the matched span of `m` in the original text (the scan
continues right after it, so its word-ness feeds the next `\B` test). -/
def RefMatch.lastIsWord (m : RefMatch) : Bool :=
  if !m.trailing.isEmpty then isWordChar (m.trailing.getLastD ' ')
  else if m.parens then false
  else isWordChar (m.ref.getLastD ' ')

/-- A piece of the scanned text: a literal character (left as is by `re.sub`)
or one regex match (to be replaced). -/
inductive Piece where
  | lit (c : Char)
  | tok (m : RefMatch)
deriving Repr, DecidableEq

/-- Fueled scanner (structural recursion so that closed terms evaluate by
`decide`/`rfl`); `tokenize` supplies adequate fuel. -/
def tokenizeFuel : Nat → Bool → List Char → List Piece
  | 0, _, _ => []
  | _ + 1, _, [] => []
  | fuel + 1, prev, c :: cs =>
    match tryMatch prev (c :: cs) with
    | some (m, rest) => .tok m :: tokenizeFuel fuel m.lastIsWord rest
    | none => .lit c :: tokenizeFuel fuel (isWordChar c) cs

/-- The scan of `re.sub` over a whole text: decompose it into literal
characters and regex matches, left to right, never rescanning matched text. -/
def tokenize (prev : Bool) (l : List Char) : List Piece := tokenizeFuel l.length prev l

/-- The reference matches of a docstring content, in left-to-right order. -/
def docTokens (content : List Char) : List RefMatch :=
  (tokenize false content).filterMap fun p =>
    match p with
    | .tok m => some m
    | .lit _ => none

/-!
The data model: a docspec ApiObject carries a name, an optional docstring
(whose mutable `content` is the text) and member objects.  The engine uses a
node only through the names along `node.path`, so the scope argument of the
resolver abstractions is modelled as that path of names.
-/

/-- A node of the API tree (`docspec.ApiObject`): name, optional docstring
content, members. -/
inductive ApiObject where
  | mk (name : String) (docstring : Option (List Char)) (members : List ApiObject)

def ApiObject.name : ApiObject → String
  | .mk n _ _ => n

def ApiObject.docstring : ApiObject → Option (List Char)
  | .mk _ d _ => d

def ApiObject.members : ApiObject → List ApiObject
  | .mk _ _ ms => ms

/-- The path of names from the root to a node; dot-joined it is the fully
qualified id. -/
abbrev NodePath := List String

/-- `ApiSuite(modules)`: the whole forest, passed opaquely to the typed
resolver. -/
abbrev Suite := List ApiObject

/-- The basic resolver capability `Resolver.resolve_ref(scope, ref) ->
Optional[str]`; the scope node is identified by its path. -/
abbrev Resolver := NodePath → List Char → Option (List Char)

/-- The typed resolver capability `ResolverV2.resolve_reference(suite, scope,
ref) -> Optional[ApiObject]`; the engine consumes the returned object only
through the names along `target.path`, so the result is modelled as that
list of names (a docspec object is always truthy, hence `Option`). -/
abbrev ResolverV2 := Suite → NodePath → List Char → Option NodePath

/-- The unresolved map `t.Dict[str, t.List[str]]`, insertion ordered: fully
qualified node id to the raw reference strings that failed there. -/
abbrev Unresolved := List (String × List (List Char))

/-- `unresolved.setdefault(uid, []).append(ref)`: append to the entry of
`uid`, creating it at the end on first use (Python dicts preserve insertion
order). -/
def addUnresolved (uid : String) (ref : List Char) : Unresolved → Unresolved
  | [] => [(uid, [ref])]
  | (k, v) :: rest =>
    if k = uid then (k, v ++ [ref]) :: rest else (k, v) :: addUnresolved uid ref rest

/-- The trailing sentence period stripping at the top of the handler:
if the trailing suffix is nonempty and ends in a period, drop that period;
otherwise, if no parens were matched and the ref ends in a period, drop it
from the ref.  Returns the (ref, trailing, has_trailing_dot) triple. -/
def stripSentencePeriod (m : RefMatch) : List Char × List Char × Bool :=
  if m.trailing.getLast? == some '.' then (m.ref, m.trailing.dropLast, true)
  else if !m.parens && m.ref.getLast? == some '.' then (m.ref.dropLast, m.trailing, true)
  else (m.ref, m.trailing, false)

/-- Literal escaping of a TOML basic string as produced by `tomli_w` for the
characters that can occur in a display text. -/
def tomlEscape : List Char → List Char
  | [] => []
  | c :: cs =>
    (if c = '\\' then ['\\', '\\'] else if c = '"' then ['\\', '"'] else [c]) ++ tomlEscape cs

/-- `tomli_w.dumps({"text": text})` : the line `text = "<escaped>"` plus a
newline. -/
def tomlOpt (text : List Char) : List Char :=
  "text = \"".toList ++ tomlEscape text ++ ['"', '\n']

/-- The structured Novella directive emitted on the typed resolver path:
`{@link pydoc:<dot-joined target path> :with <toml options>}`. -/
def linkDirective (target : NodePath) (text : List Char) : List Char :=
  "\x7b@link pydoc:".toList ++ (String.intercalate "." target).toList
    ++ " :with ".toList ++ tomlOpt text ++ ['\x7d']

/-- The basic hyperlink form `[`text`](href)`. -/
def basicLink (text href : List Char) : List Char :=
  "[`".toList ++ text ++ "`](".toList ++ href ++ [')']

/-- The inline-code fallback `` `text` ``. -/
def codeFallback (text : List Char) : List Char := '`' :: (text ++ ['`'])

/-- Re-append the stripped sentence period when there was one. -/
def withDot (b : Bool) (res : List Char) : List Char := if b then res ++ ['.'] else res

/-- The replacement function `handler` of `_preprocess_refs`, for one match
`m` at the node with path `node`: strips the sentence period, builds the
visible text, tries the typed resolver if configured (`if self.resolver_v2`),
otherwise the basic one (`elif resolver`, with the empty href falsy as in
Python), falls back to inline code while recording the unresolved ref, and
re-appends the period.  Returns the substitution text and the updated
unresolved map. -/
def handler (rv2 : Option ResolverV2) (resolver : Option Resolver) (suite : Suite)
    (node : NodePath) (m : RefMatch) (unresolved : Unresolved) : List Char × Unresolved :=
  let s := stripSentencePeriod m
  let ref := s.1
  let trailing := s.2.1
  let hasTrailingDot := s.2.2
  let parens : List Char := if m.parens then ['(', ')'] else []
  let text := ref ++ parens ++ trailing
  let result : Option (List Char) :=
    match rv2 with
    | some rv =>
      match rv suite node ref with
      | some target => some (linkDirective target text)
      | none => none
    | none =>
      match resolver with
      | some r =>
        match r node ref with
        | some href => if href.isEmpty then none else some (basicLink text href)
        | none => none
      | none => none
  let ru : List Char × Unresolved :=
    match result with
    | some res => (res, unresolved)
    | none =>
      (codeFallback (ref ++ parens ++ trailing),
        addUnresolved (String.intercalate "." node) ref unresolved)
  (withDot hasTrailingDot ru.1, ru.2)

/-- Assemble the output of `re.sub`: literal pieces pass through, matches are
replaced by the handler output, left to right, threading the unresolved
map. -/
def applyPieces (rv2 : Option ResolverV2) (resolver : Option Resolver) (suite : Suite)
    (node : NodePath) : List Piece → Unresolved → List Char × Unresolved
  | [], u => ([], u)
  | .lit c :: ps, u =>
    let r := applyPieces rv2 resolver suite node ps u
    (c :: r.1, r.2)
  | .tok m :: ps, u =>
    let h := handler rv2 resolver suite node m u
    let r := applyPieces rv2 resolver suite node ps h.2
    (h.1 ++ r.1, r.2)

/-- `_preprocess_refs` on one docstring content: scan, then substitute. -/
def preprocessRefs (rv2 : Option ResolverV2) (resolver : Option Resolver) (suite : Suite)
    (node : NodePath) (content : List Char) (u : Unresolved) : List Char × Unresolved :=
  applyPieces rv2 resolver suite node (tokenize false content) u

/-- `_preprocess_refs` on one node: nothing happens without a docstring,
otherwise its content is rewritten in place. -/
def preprocessNode (rv2 : Option ResolverV2) (resolver : Option Resolver) (suite : Suite)
    (path : NodePath) (node : ApiObject) (u : Unresolved) : ApiObject × Unresolved :=
  match node with
  | .mk name none ms => (.mk name none ms, u)
  | .mk name (some content) ms =>
    let r := preprocessRefs rv2 resolver suite path content u
    (.mk name (some r.1) ms, r.2)

mutual

/-- `docspec.visit` applied to one object: run `_preprocess_refs` on the
node (its path is its ancestors plus its own name), then on its members. -/
def processObj (rv2 : Option ResolverV2) (resolver : Option Resolver) (suite : Suite)
    (parentPath : NodePath) : ApiObject → Unresolved → ApiObject × Unresolved
  | .mk name doc ms, u =>
    let path := parentPath ++ [name]
    let du : Option (List Char) × Unresolved :=
      match doc with
      | none => (none, u)
      | some content =>
        let r := preprocessRefs rv2 resolver suite path content u
        (some r.1, r.2)
    let rm := processMembers rv2 resolver suite path ms du.2
    (.mk name du.1 rm.1, rm.2)

/-- `docspec.visit` over a list of sibling objects, left to right. -/
def processMembers (rv2 : Option ResolverV2) (resolver : Option Resolver) (suite : Suite)
    (parentPath : NodePath) : List ApiObject → Unresolved → List ApiObject × Unresolved
  | [], u => ([], u)
  | x :: xs, u =>
    let r1 := processObj rv2 resolver suite parentPath x u
    let r2 := processMembers rv2 resolver suite parentPath xs r1.2
    (r1.1 :: r2.1, r2.2)

end

/-- `CrossrefProcessor.process(modules, resolver)`: visit every node of the
forest with `_preprocess_refs`, starting from a fresh unresolved map; the
suite handed to the typed resolver is `ApiSuite(modules)`, the whole
forest.  Returns the rewritten forest and the unresolved report (the
aggregated warning handed to the logger is built from the latter). -/
def process (rv2 : Option ResolverV2) (resolver : Option Resolver)
    (modules : List ApiObject) : List ApiObject × Unresolved :=
  processMembers rv2 resolver modules [] modules []

mutual

/-- Erase every docstring of a node (keeping name and member structure):
two trees agree under `stripDoc` iff they differ at most in docstrings. -/
def stripDoc : ApiObject → ApiObject
  | .mk name _ ms => .mk name none (stripDocList ms)

/-- `stripDoc` over a list of sibling objects. -/
def stripDocList : List ApiObject → List ApiObject
  | [] => []
  | x :: xs => stripDoc x :: stripDocList xs

end

/-!
Exception-aware variants: a Python resolver may raise instead of returning.
A resolver call is modelled in `Except`, and the engine, which installs no
handler around the calls, propagates the first error.
-/

/-- A basic resolver whose call may raise an exception of type `ε`. -/
abbrev ResolverE (ε : Type) := NodePath → List Char → Except ε (Option (List Char))

/-- A typed resolver whose call may raise an exception of type `ε`. -/
abbrev ResolverV2E (ε : Type) := Suite → NodePath → List Char → Except ε (Option NodePath)

/-- A resolver that never raises, lifted from a pure one. -/
def liftResolver (r : Resolver) (ε : Type) : ResolverE ε := fun p s => .ok (r p s)

/-- A typed resolver that never raises, lifted from a pure one. -/
def liftResolverV2 (r : ResolverV2) (ε : Type) : ResolverV2E ε := fun su p s => .ok (r su p s)

/-- The handler with raising resolvers: identical to `handler` except that a
raised exception propagates (the engine catches nothing). -/
def handlerE {ε : Type} (rv2 : Option (ResolverV2E ε)) (resolver : Option (ResolverE ε))
    (suite : Suite) (node : NodePath) (m : RefMatch) (unresolved : Unresolved) :
    Except ε (List Char × Unresolved) :=
  let s := stripSentencePeriod m
  let ref := s.1
  let trailing := s.2.1
  let hasTrailingDot := s.2.2
  let parens : List Char := if m.parens then ['(', ')'] else []
  let text := ref ++ parens ++ trailing
  let resultE : Except ε (Option (List Char)) :=
    match rv2 with
    | some rv =>
      match rv suite node ref with
      | .error e => .error e
      | .ok (some target) => .ok (some (linkDirective target text))
      | .ok none => .ok none
    | none =>
      match resolver with
      | some r =>
        match r node ref with
        | .error e => .error e
        | .ok (some href) => .ok (if href.isEmpty then none else some (basicLink text href))
        | .ok none => .ok none
      | none => .ok none
  match resultE with
  | .error e => .error e
  | .ok result =>
    let ru : List Char × Unresolved :=
      match result with
      | some res => (res, unresolved)
      | none =>
        (codeFallback (ref ++ parens ++ trailing),
          addUnresolved (String.intercalate "." node) ref unresolved)
    .ok (withDot hasTrailingDot ru.1, ru.2)

/-- Substitution with raising resolvers: the first raised exception aborts
the whole run; otherwise tokens are processed exactly as without
exceptions. -/
def applyPiecesE {ε : Type} (rv2 : Option (ResolverV2E ε)) (resolver : Option (ResolverE ε))
    (suite : Suite) (node : NodePath) :
    List Piece → Unresolved → Except ε (List Char × Unresolved)
  | [], u => .ok ([], u)
  | .lit c :: ps, u =>
    match applyPiecesE rv2 resolver suite node ps u with
    | .error e => .error e
    | .ok r => .ok (c :: r.1, r.2)
  | .tok m :: ps, u =>
    match handlerE rv2 resolver suite node m u with
    | .error e => .error e
    | .ok h =>
      match applyPiecesE rv2 resolver suite node ps h.2 with
      | .error e => .error e
      | .ok r => .ok (h.1 ++ r.1, r.2)

/-- `_preprocess_refs` on one docstring content with raising resolvers. -/
def preprocessRefsE {ε : Type} (rv2 : Option (ResolverV2E ε)) (resolver : Option (ResolverE ε))
    (suite : Suite) (node : NodePath) (content : List Char) (u : Unresolved) :
    Except ε (List Char × Unresolved) :=
  applyPiecesE rv2 resolver suite node (tokenize false content) u

/-!
Concrete resolver fixtures used by closed counterexamples and witnesses.
-/

/-- A basic resolver that resolves exactly the name `Foo`, to `/api/foo`. -/
def fooResolver : Resolver := fun _ s =>
  if s = "Foo".toList then some ("/api/foo".toList) else none

/-- A basic resolver that resolves every name to `/x`. -/
def slashXResolver : Resolver := fun _ _ => some ("/x".toList)

/-- A typed resolver that never finds a target. -/
def absentResolverV2 : ResolverV2 := fun _ _ _ => none

/-- A typed resolver that resolves every name to the node `a.b`. -/
def abResolverV2 : ResolverV2 := fun _ _ _ => some ["a", "b"]

/-!
Helper lemmas.
-/

theorem length_dropWhile_le (p : Char → Bool) (l : List Char) :
    (l.dropWhile p).length ≤ l.length := by
  induction l with
  | nil => simp
  | cons c cs ih =>
    rw [List.dropWhile_cons]
    split
    · exact Nat.le_succ_of_le ih
    · exact Nat.le_refl _

theorem parseParens_length_le (l : List Char) : (parseParens l).2.length ≤ l.length := by
  unfold parseParens
  split
  · simp
    omega
  · simp

theorem parseTrailing_length_le (l : List Char) : (parseTrailing l).2.length ≤ l.length := by
  unfold parseTrailing
  split
  · split
    · simp
    · simpa using Nat.le_succ_of_le (length_dropWhile_le isRefChar _)
  · simp

theorem tryMatch_length_lt {prev : Bool} {l rest : List Char} {m : RefMatch}
    (h : tryMatch prev l = some (m, rest)) : rest.length < l.length := by
  unfold tryMatch at h
  split at h
  case h_2 => exact absurd h (by simp)
  case h_1 cs =>
    split at h
    · exact absurd h (by simp)
    · split at h
      · exact absurd h (by simp)
      · simp only [Option.some.injEq, Prod.mk.injEq] at h
        calc rest.length ≤ (parseParens (cs.dropWhile isRefChar)).2.length := by
                rw [← h.2]; exact parseTrailing_length_le _
          _ ≤ (cs.dropWhile isRefChar).length := parseParens_length_le _
          _ ≤ cs.length := length_dropWhile_le isRefChar cs
          _ < cs.length + 1 := Nat.lt_succ_self _

theorem tokenizeFuel_adequate (fuel : Nat) :
    ∀ prev (l : List Char), l.length ≤ fuel →
      tokenizeFuel fuel prev l = tokenize prev l := by
  induction fuel using Nat.strong_induction_on with
  | _ fuel ih =>
    intro prev l hlen
    match fuel, l with
    | 0, l =>
      have : l = [] := List.eq_nil_of_length_eq_zero (Nat.le_zero.mp hlen)
      subst this; rfl
    | fuel + 1, [] => rfl
    | fuel + 1, c :: cs =>
      show tokenizeFuel (fuel + 1) prev (c :: cs) = tokenizeFuel (cs.length + 1) prev (c :: cs)
      simp only [tokenizeFuel]
      cases htm : tryMatch prev (c :: cs) with
      | none =>
        have h1 : tokenizeFuel fuel (isWordChar c) cs = tokenize (isWordChar c) cs :=
          ih fuel (Nat.lt_succ_self _) _ cs (Nat.le_of_succ_le_succ hlen)
        have h2 : tokenizeFuel cs.length (isWordChar c) cs = tokenize (isWordChar c) cs :=
          ih cs.length (Nat.lt_succ_of_le (Nat.le_of_succ_le_succ hlen)) _ cs (Nat.le_refl _)
        show Piece.lit c :: tokenizeFuel fuel (isWordChar c) cs =
          Piece.lit c :: tokenizeFuel cs.length (isWordChar c) cs
        rw [h1, h2]
      | some mr =>
        obtain ⟨m, rest⟩ := mr
        have hlt : rest.length < cs.length + 1 := tryMatch_length_lt htm
        have h1 : tokenizeFuel fuel m.lastIsWord rest = tokenize m.lastIsWord rest :=
          ih fuel (Nat.lt_succ_self _) _ rest
            (Nat.le_of_succ_le_succ (Nat.le_trans hlt hlen))
        have h2 : tokenizeFuel cs.length m.lastIsWord rest = tokenize m.lastIsWord rest :=
          ih cs.length (Nat.lt_succ_of_le (Nat.le_of_succ_le_succ hlen)) _ rest
            (Nat.le_of_succ_le_succ hlt)
        show Piece.tok m :: tokenizeFuel fuel m.lastIsWord rest =
          Piece.tok m :: tokenizeFuel cs.length m.lastIsWord rest
        rw [h1, h2]

/-- Unfolding equation of the scan at a cons cell. -/
theorem tokenize_cons (prev : Bool) (c : Char) (cs : List Char) :
    tokenize prev (c :: cs) =
      match tryMatch prev (c :: cs) with
      | some (m, rest) => .tok m :: tokenize m.lastIsWord rest
      | none => .lit c :: tokenize (isWordChar c) cs := by
  show tokenizeFuel (cs.length + 1) prev (c :: cs) = _
  simp only [tokenizeFuel]
  cases htm : tryMatch prev (c :: cs) with
  | none =>
    show Piece.lit c :: tokenizeFuel cs.length (isWordChar c) cs =
      Piece.lit c :: tokenize (isWordChar c) cs
    rw [tokenizeFuel_adequate cs.length _ cs (Nat.le_refl _)]
  | some mr =>
    obtain ⟨m, rest⟩ := mr
    show Piece.tok m :: tokenizeFuel cs.length m.lastIsWord rest =
      Piece.tok m :: tokenize m.lastIsWord rest
    rw [tokenizeFuel_adequate cs.length _ rest (Nat.le_of_succ_le_succ (tryMatch_length_lt htm))]

theorem tryMatch_not_hash {c : Char} (prev : Bool) (cs : List Char) (h : c ≠ '#') :
    tryMatch prev (c :: cs) = none := by
  unfold tryMatch
  split
  · rename_i heq
    injection heq with h1 _
    exact absurd h1 h
  · rfl

theorem tokenize_no_hash (l : List Char) :
    ∀ prev, (∀ c ∈ l, c ≠ '#') → tokenize prev l = l.map Piece.lit := by
  induction l with
  | nil => intro prev _; rfl
  | cons c cs ih =>
    intro prev h
    rw [tokenize_cons, tryMatch_not_hash prev cs (h c (List.mem_cons_self c cs))]
    show Piece.lit c :: tokenize (isWordChar c) cs = Piece.lit c :: cs.map Piece.lit
    rw [ih (isWordChar c) fun x hx => h x (List.mem_cons_of_mem c hx)]

theorem applyPieces_lits (rv2 : Option ResolverV2) (resolver : Option Resolver) (suite : Suite)
    (node : NodePath) (l : List Char) (u : Unresolved) :
    applyPieces rv2 resolver suite node (l.map Piece.lit) u = (l, u) := by
  induction l with
  | nil => rfl
  | cons c cs ih => simp [applyPieces, ih]

/-- C6: for every docstring text containing no `#` character, processing
leaves the text byte-for-byte unchanged and adds no entry to the unresolved
report, whatever resolvers are configured. -/
theorem crossref_C6 (rv2 : Option ResolverV2) (resolver : Option Resolver) (suite : Suite)
    (node : NodePath) (content : List Char) (u : Unresolved)
    (h : ∀ c ∈ content, c ≠ '#') :
    preprocessRefs rv2 resolver suite node content u = (content, u) := by
  unfold preprocessRefs
  rw [tokenize_no_hash content false h]
  exact applyPieces_lits rv2 resolver suite node content u

/-- Witness for C6 at the concrete text `hello world.`. -/
theorem crossref_C6_witness :
    preprocessRefs none none [] ["m"] ("hello world.".toList) [] =
      ("hello world.".toList, []) :=
  crossref_C6 none none [] ["m"] ("hello world.".toList) [] (by decide)

/-- C1 (claim as stated is false): with both resolvers configured, the typed
one returning absent and the basic one returning the address `/x`, the token
`#Foo` is NOT rewritten as a hyperlink: it becomes inline-code fallback and
is recorded as unresolved, although the basic resolver had an address. -/
theorem crossref_C1_counterexample :
    preprocessRefs (some absentResolverV2) (some slashXResolver) [] ["m"] ("#Foo".toList) [] =
      ("`Foo`".toList, [("m", ["Foo".toList])]) ∧
    ("`Foo`".toList : List Char) ≠ basicLink ("Foo".toList) ("/x".toList) :=
  ⟨by decide, by decide⟩

/-- C1 (amended): when a typed resolver is configured the basic resolver is
never consulted — the outcome is the same whatever basic resolver is
configured — and a token for which the typed resolver returns absent is
recorded as unresolved and rendered as inline-code fallback. -/
theorem crossref_C1 (rv2 : ResolverV2) (r r2 : Option Resolver) (suite : Suite)
    (node : NodePath) (m : RefMatch) (u : Unresolved) :
    handler (some rv2) r suite node m u = handler (some rv2) r2 suite node m u ∧
    (rv2 suite node (stripSentencePeriod m).1 = none →
      handler (some rv2) r suite node m u =
        (withDot (stripSentencePeriod m).2.2
          (codeFallback ((stripSentencePeriod m).1 ++ (if m.parens then ['(', ')'] else [])
            ++ (stripSentencePeriod m).2.1)),
         addUnresolved (String.intercalate "." node) (stripSentencePeriod m).1 u)) := by
  constructor
  · rfl
  · intro h
    unfold handler
    dsimp only
    rw [h]

/-- Witness for C1 at a concrete input. -/
theorem crossref_C1_witness :
    handler (some absentResolverV2) (some slashXResolver) [] ["m"]
        ⟨"Foo".toList, false, []⟩ [] =
      ("`Foo`".toList, [("m", ["Foo".toList])]) :=
  (crossref_C1 absentResolverV2 (some slashXResolver) none [] ["m"]
    ⟨"Foo".toList, false, []⟩ []).2 (by decide)

/-- C2: at the failing input `#this~Foo` with a basic resolver that maps
`Foo` to `/api/foo` (and nothing else), the code matches only `#this` (the
grammar has no rename support: `~` is not a ref character), looks up `this`,
leaves `~Foo` untouched, and yields `` `this`~Foo `` — not the claimed
`` [`this`](/api/foo) ``. -/
theorem crossref_C2_code_behavior :
    preprocessRefs none (some fooResolver) [] ["m"] ("#this~Foo".toList) [] =
      ("`this`~Foo".toList, [("m", ["this".toList])]) ∧
    ("`this`~Foo".toList : List Char) ≠ "[`this`](/api/foo)".toList :=
  ⟨by decide, by decide⟩

/-- C3 (claim as stated is false): `#Foo#bar` with no resolver rewrites to
`` `Foobar` `` (the `#` separator is dropped from the display text), not to
the claimed `` `Foo#bar` ``. -/
theorem crossref_C3_counterexample :
    (preprocessRefs none none [] ["m"] ("#Foo#bar".toList) []).1 = "`Foobar`".toList ∧
    ("`Foobar`".toList : List Char) ≠ "`Foo#bar`".toList :=
  ⟨by decide, by decide⟩

/-- C3 (amended): processing `#Foo#bar` depends on the basic resolver only
through its answer for exactly the name `Foo`; the display text is `Foobar`
(leading `#` of the trailing suffix stripped, remainder appended directly),
with inline-code fallback and the entry `Foo` recorded when the lookup
fails. -/
theorem crossref_C3 (r : Resolver) (suite : Suite) (node : NodePath) (u : Unresolved) :
    preprocessRefs none (some r) suite node ("#Foo#bar".toList) u =
      match r node ("Foo".toList) with
      | some href =>
        if href.isEmpty
        then ("`Foobar`".toList, addUnresolved (String.intercalate "." node) ("Foo".toList) u)
        else (basicLink ("Foobar".toList) href, u)
      | none =>
        ("`Foobar`".toList, addUnresolved (String.intercalate "." node) ("Foo".toList) u) := by
  unfold preprocessRefs
  rw [show tokenize false ("#Foo#bar".toList) =
    [Piece.tok ⟨"Foo".toList, false, "bar".toList⟩] from by decide]
  unfold applyPieces handler
  dsimp only
  rw [show stripSentencePeriod ⟨"Foo".toList, false, "bar".toList⟩ =
    ("Foo".toList, "bar".toList, false) from by decide]
  cases hr : r node ("Foo".toList) with
  | none => simp [applyPieces, withDot, codeFallback]
  | some href =>
    cases href with
    | nil => simp [applyPieces, withDot, codeFallback]
    | cons c cs => simp [applyPieces, withDot, basicLink]

/-- C7 (claim as stated is false): the first run on `#Foo#bar#baz` with no
resolver yields `` `Foobar`#baz `` — the leftover `#baz` did not match (it
followed the word character `r` in the original text) but in the output it
follows a backtick, so a second run substitutes again and changes the
text. -/
theorem crossref_C7_counterexample :
    (preprocessRefs none none [] ["m"] ("#Foo#bar#baz".toList) []).1 = "`Foobar`#baz".toList ∧
    (preprocessRefs none none [] ["m"] ("`Foobar`#baz".toList) []).1 = "`Foobar``baz`".toList ∧
    (preprocessRefs none none [] ["m"] ("`Foobar`#baz".toList) []).1 ≠ "`Foobar`#baz".toList :=
  ⟨by decide, by decide, by decide⟩

/-- C7 (amended): the replacement text emitted for a token when no resolver
is configured (the inline-code fallback, with possible re-appended period)
contains no `#` at all, hence never itself re-matches the grammar; it is
only text outside the matched spans that can make a second run substitute
again. -/
theorem crossref_C7 (suite : Suite) (node : NodePath) (m : RefMatch) (u : Unresolved)
    (h1 : '#' ∉ m.ref) (h2 : '#' ∉ m.trailing) :
    '#' ∉ (handler none none suite node m u).1 := by
  have hsp : '#' ∉ (stripSentencePeriod m).1 ∧ '#' ∉ (stripSentencePeriod m).2.1 := by
    unfold stripSentencePeriod
    split
    · exact ⟨h1, fun hx => h2 ((List.dropLast_prefix _).subset hx)⟩
    · split
      · exact ⟨fun hx => h1 ((List.dropLast_prefix _).subset hx), h2⟩
      · exact ⟨h1, h2⟩
  unfold handler
  dsimp only
  intro hmem
  unfold withDot at hmem
  have hcf : ('#' : Char) ∈ codeFallback ((stripSentencePeriod m).1
      ++ (if m.parens then ['(', ')'] else []) ++ (stripSentencePeriod m).2.1) := by
    split at hmem
    · rcases List.mem_append.mp hmem with h | h
      · exact h
      · exact absurd h (by decide)
    · exact hmem
  unfold codeFallback at hcf
  rcases List.mem_cons.mp hcf with h | h
  · exact absurd h (by decide)
  rcases List.mem_append.mp h with h | h
  · rcases List.mem_append.mp h with h | h
    · rcases List.mem_append.mp h with h | h
      · exact hsp.1 h
      · split at h
        · exact absurd h (by decide)
        · exact absurd h (by simp)
    · exact hsp.2 h
  · exact absurd h (by decide)

/-- Witness for C7 at a concrete match. -/
theorem crossref_C7_witness :
    '#' ∉ (handler none none [] ["m"] ⟨"Foo".toList, false, "bar".toList⟩ []).1 :=
  crossref_C7 [] ["m"] ⟨"Foo".toList, false, "bar".toList⟩ [] (by decide) (by decide)

/-- C4: `See #Foo.` with `Foo` unresolved by every configured resolver
rewrites to `` See `Foo`. `` — the match takes `Foo.` but the period is
stripped before lookup, the inline-code span holds only `Foo`, and the
period is re-appended after substitution. -/
theorem crossref_C4 (rv2 : Option ResolverV2) (resolver : Option Resolver) (suite : Suite)
    (node : NodePath) (u : Unresolved)
    (h2 : ∀ f, rv2 = some f → f suite node ("Foo".toList) = none)
    (h1 : ∀ f, resolver = some f → f node ("Foo".toList) = none) :
    (preprocessRefs rv2 resolver suite node ("See #Foo.".toList) u).1 = "See `Foo`.".toList := by
  unfold preprocessRefs
  rw [show tokenize false ("See #Foo.".toList) =
    [Piece.lit 'S', Piece.lit 'e', Piece.lit 'e', Piece.lit ' ',
     Piece.tok ⟨"Foo.".toList, false, []⟩] from by decide]
  simp only [applyPieces]
  unfold handler
  dsimp only
  rw [show stripSentencePeriod ⟨"Foo.".toList, false, []⟩ =
    ("Foo".toList, [], true) from by decide]
  dsimp only
  cases rv2 with
  | some f =>
    have hf : f suite node ("Foo".toList) = none := h2 f rfl
    dsimp only
    rw [hf]
    simp [applyPieces, withDot, codeFallback]
  | none =>
    cases resolver with
    | some f =>
      have hf : f node ("Foo".toList) = none := h1 f rfl
      dsimp only
      rw [hf]
      simp [applyPieces, withDot, codeFallback]
    | none => simp [applyPieces, withDot, codeFallback]

/-- Witness for C4 with no resolver configured. -/
theorem crossref_C4_witness :
    (preprocessRefs none none [] ["m"] ("See #Foo.".toList) []).1 = "See `Foo`.".toList :=
  crossref_C4 none none [] ["m"] [] (fun _ h => nomatch h) (fun _ h => nomatch h)

theorem linkDirective_head (target : NodePath) (text : List Char) :
    (linkDirective target text).head? = some '\x7b' := rfl

theorem basicLink_head (text href : List Char) :
    (basicLink text href).head? = some '[' := rfl

theorem withDot_head {c : Char} (b : Bool) (l : List Char) (h : l.head? = some c) :
    (withDot b l).head? = some c := by
  cases l with
  | nil => exact absurd h (by simp)
  | cons a as => cases b <;> simpa [withDot] using h

/-- C5: when a typed resolver is configured and returns a target for a
token, the emitted substitution is the structured link directive built from
the display text and the dot-joined path of the target (plus the re-appended
period when one was stripped), the unresolved map is untouched, and the
output is never of the basic hyperlink form. -/
theorem crossref_C5 (rv2 : ResolverV2) (r : Option Resolver) (suite : Suite) (node : NodePath)
    (m : RefMatch) (u : Unresolved) (target : NodePath)
    (h : rv2 suite node (stripSentencePeriod m).1 = some target) :
    handler (some rv2) r suite node m u =
      (withDot (stripSentencePeriod m).2.2
        (linkDirective target
          ((stripSentencePeriod m).1 ++ (if m.parens then ['(', ')'] else [])
            ++ (stripSentencePeriod m).2.1)), u) ∧
    ∀ text href, (handler (some rv2) r suite node m u).1 ≠ basicLink text href := by
  have h1 : handler (some rv2) r suite node m u =
      (withDot (stripSentencePeriod m).2.2
        (linkDirective target
          ((stripSentencePeriod m).1 ++ (if m.parens then ['(', ')'] else [])
            ++ (stripSentencePeriod m).2.1)), u) := by
    unfold handler
    dsimp only
    rw [h]
  refine ⟨h1, ?_⟩
  intro text href heq
  rw [h1] at heq
  have hh := congrArg List.head? heq
  rw [withDot_head _ _ (linkDirective_head target _), basicLink_head] at hh
  exact absurd hh (by decide)

/-- Witness for C5 at a concrete match and typed resolver. -/
theorem crossref_C5_witness :
    handler (some abResolverV2) none [] ["m"] ⟨"Foo".toList, false, []⟩ [] =
      (linkDirective ["a", "b"] ("Foo".toList), []) ∧
    ∀ text href,
      (handler (some abResolverV2) none [] ["m"] ⟨"Foo".toList, false, []⟩ []).1
        ≠ basicLink text href :=
  crossref_C5 abResolverV2 none [] ["m"] ⟨"Foo".toList, false, []⟩ [] ["a", "b"] (by decide)

theorem handler_none_none_snd (suite : Suite) (node : NodePath) (m : RefMatch)
    (u : Unresolved) :
    (handler none none suite node m u).2 =
      addUnresolved (String.intercalate "." node) (stripSentencePeriod m).1 u := rfl

theorem applyPieces_none_unresolved (suite : Suite) (node : NodePath) :
    ∀ (ps : List Piece) (u : Unresolved),
      (applyPieces none none suite node ps u).2 =
        (ps.filterMap fun p =>
            match p with
            | .tok m => some m
            | .lit _ => none).foldl
          (fun acc m =>
            addUnresolved (String.intercalate "." node) (stripSentencePeriod m).1 acc) u := by
  intro ps
  induction ps with
  | nil => intro u; rfl
  | cons p ps ih =>
    intro u
    cases p with
    | lit c => simpa [applyPieces] using ih u
    | tok m =>
      simp only [applyPieces, List.filterMap_cons, List.foldl_cons]
      rw [ih, handler_none_none_snd]

/-- C10: whenever a token is recorded, the appended string is exactly the
period-stripped ref used for lookup (first part); that stripped ref is the
raw ref or the raw ref minus its final period, so it never includes the
call suffix, the trailing suffix or a stripped period (second part); and
with no resolver configured the unresolved entries of a docstring are
accumulated one per occurrence, in left-to-right order, duplicates kept
(third part). -/
theorem crossref_C10 :
    (∀ (rv2 : Option ResolverV2) (resolver : Option Resolver) (suite : Suite) (node : NodePath)
        (m : RefMatch) (u : Unresolved),
      (handler rv2 resolver suite node m u).2 = u ∨
      (handler rv2 resolver suite node m u).2 =
        addUnresolved (String.intercalate "." node) (stripSentencePeriod m).1 u) ∧
    (∀ m : RefMatch,
      (stripSentencePeriod m).1 = m.ref ∨ (stripSentencePeriod m).1 = m.ref.dropLast) ∧
    (∀ (suite : Suite) (node : NodePath) (content : List Char) (u : Unresolved),
      (preprocessRefs none none suite node content u).2 =
        (docTokens content).foldl
          (fun acc m =>
            addUnresolved (String.intercalate "." node) (stripSentencePeriod m).1 acc) u) := by
  refine ⟨?_, ?_, ?_⟩
  · intro rv2 resolver suite node m u
    unfold handler
    dsimp only
    split
    · exact Or.inl rfl
    · exact Or.inr rfl
  · intro m
    unfold stripSentencePeriod
    split
    · exact Or.inl rfl
    · split
      · exact Or.inr rfl
      · exact Or.inl rfl
  · intro suite node content u
    exact applyPieces_none_unresolved suite node (tokenize false content) u

theorem handlerE_lift (ε : Type) (rv2 : Option ResolverV2) (resolver : Option Resolver)
    (suite : Suite) (node : NodePath) (m : RefMatch) (u : Unresolved) :
    handlerE (rv2.map fun r => liftResolverV2 r ε) (resolver.map fun r => liftResolver r ε)
        suite node m u = Except.ok (handler rv2 resolver suite node m u) := by
  unfold handlerE handler liftResolverV2 liftResolver
  cases rv2 with
  | some rv =>
    dsimp only [Option.map]
    cases rv suite node (stripSentencePeriod m).1 <;> rfl
  | none =>
    cases resolver with
    | none => rfl
    | some f =>
      dsimp only [Option.map]
      cases f node (stripSentencePeriod m).1 with
      | none => rfl
      | some href => cases href <;> rfl

theorem applyPiecesE_lift (ε : Type) (rv2 : Option ResolverV2) (resolver : Option Resolver)
    (suite : Suite) (node : NodePath) :
    ∀ (ps : List Piece) (u : Unresolved),
      applyPiecesE (rv2.map fun r => liftResolverV2 r ε) (resolver.map fun r => liftResolver r ε)
          suite node ps u = Except.ok (applyPieces rv2 resolver suite node ps u) := by
  intro ps
  induction ps with
  | nil => intro u; rfl
  | cons p ps ih =>
    intro u
    cases p with
    | lit c => simp only [applyPiecesE, applyPieces, ih]
    | tok m => simp only [applyPiecesE, applyPieces, handlerE_lift, ih]

/-- C9: a resolver signaling "not found" never aborts processing — with
resolvers that never raise, the exception-aware engine returns `ok` of the
plain result, every token and the rest of the text included (first part) —
whereas a resolver call that raises makes the run terminate with exactly
that exception, uncaught by the engine (second part). -/
theorem crossref_C9 :
    (∀ (ε : Type) (rv2 : Option ResolverV2) (resolver : Option Resolver) (suite : Suite)
        (node : NodePath) (content : List Char) (u : Unresolved),
      preprocessRefsE (rv2.map fun r => liftResolverV2 r ε)
          (resolver.map fun r => liftResolver r ε) suite node content u =
        Except.ok (preprocessRefs rv2 resolver suite node content u)) ∧
    (∀ (ε : Type) (rE : ResolverE ε) (e : ε) (suite : Suite) (node : NodePath) (m : RefMatch)
        (ps : List Piece) (u : Unresolved),
      rE node (stripSentencePeriod m).1 = Except.error e →
      applyPiecesE none (some rE) suite node (Piece.tok m :: ps) u = Except.error e) := by
  constructor
  · intro ε rv2 resolver suite node content u
    exact applyPiecesE_lift ε rv2 resolver suite node (tokenize false content) u
  · intro ε rE e suite node m ps u h
    unfold applyPiecesE handlerE
    dsimp only
    rw [h]

/-- Witness for C9: a resolver that raises `42` on every lookup aborts the
substitution with exactly that exception. -/
theorem crossref_C9_witness :
    @applyPiecesE Nat none (some fun _ _ => Except.error 42) [] ["m"]
        [Piece.tok ⟨"Foo".toList, false, []⟩] [] = Except.error 42 :=
  crossref_C9.2 Nat (fun _ _ => Except.error 42) 42 [] ["m"] ⟨"Foo".toList, false, []⟩ [] []
    (by rfl)

theorem stripDoc_mk (n : String) (d : Option (List Char)) (ms : List ApiObject) :
    stripDoc (ApiObject.mk n d ms) = ApiObject.mk n none (stripDocList ms) := by
  simp only [stripDoc]

theorem stripDocList_cons (x : ApiObject) (xs : List ApiObject) :
    stripDocList (x :: xs) = stripDoc x :: stripDocList xs := by
  simp only [stripDocList]

theorem stripDoc_process_aux (rv2 : Option ResolverV2) (resolver : Option Resolver) :
    ∀ n : Nat,
      (∀ node : ApiObject, sizeOf node ≤ n →
        ∀ (suite : Suite) (pp : NodePath) (u : Unresolved),
          stripDoc (processObj rv2 resolver suite pp node u).1 = stripDoc node) ∧
      (∀ ms : List ApiObject, sizeOf ms ≤ n →
        ∀ (suite : Suite) (pp : NodePath) (u : Unresolved),
          stripDocList (processMembers rv2 resolver suite pp ms u).1 = stripDocList ms) := by
  intro n
  induction n using Nat.strong_induction_on with
  | _ n ih =>
    constructor
    · intro node hle suite pp u
      match node with
      | .mk name doc ms =>
        have hlt : sizeOf ms < n := by
          have : sizeOf ms < sizeOf (ApiObject.mk name doc ms) := by
            simp only [ApiObject.mk.sizeOf_spec]
            omega
          omega
        unfold processObj
        cases doc with
        | none =>
          dsimp only
          rw [stripDoc_mk, stripDoc_mk,
            (ih (sizeOf ms) hlt).2 ms (Nat.le_refl _) suite (pp ++ [name]) u]
        | some content =>
          dsimp only
          rw [stripDoc_mk, stripDoc_mk,
            (ih (sizeOf ms) hlt).2 ms (Nat.le_refl _) suite (pp ++ [name]) _]
    · intro ms hle suite pp u
      match ms with
      | [] =>
        unfold processMembers
        rfl
      | x :: xs =>
        have hx : sizeOf x < n := by
          have : sizeOf x < sizeOf (x :: xs) := by
            simp only [List.cons.sizeOf_spec]
            omega
          omega
        have hxs : sizeOf xs < n := by
          have : sizeOf xs < sizeOf (x :: xs) := by
            simp only [List.cons.sizeOf_spec]
            omega
          omega
        unfold processMembers
        dsimp only
        rw [stripDocList_cons, stripDocList_cons,
          (ih (sizeOf x) hx).1 x (Nat.le_refl _) suite pp u,
          (ih (sizeOf xs) hxs).2 xs (Nat.le_refl _) suite pp _]

/-- C8: `process` modifies docstrings only — erasing all docstrings, the
output forest equals the input forest: every name, the member lists, their
order and the whole tree shape are unchanged. -/
theorem crossref_C8 (rv2 : Option ResolverV2) (resolver : Option Resolver)
    (modules : List ApiObject) :
    stripDocList (process rv2 resolver modules).1 = stripDocList modules := by
  unfold process
  exact (stripDoc_process_aux rv2 resolver (sizeOf modules)).2 modules (Nat.le_refl _)
    modules [] []
